import Mathlib

/-!
Shallow embedding of `common/membership/rpServiceResolver.go` from the
cadence repository: a ringpop-backed service resolver that owns a
consistent-hash ring, rebuilds it from the authoritative membership
snapshot on every ring-changed notification, and fans change events out
to registered listeners over bounded channels.

The hash ring and the membership (gossip) layer are external
collaborators of this file; they are modelled here at the interface
boundary the resolver consumes (construct-empty / add-members / lookup
for the ring; reachable-members query with a label filter plus
listener (de)registration for the membership source).  Go maps carrying
string labels are modelled as association lists, channels as a bounded
buffer, and the `logger.Panic` call on a refresh-time fetch failure as
an `Except.error` outcome that carries no successor state.
-/

namespace RpResolver

/-- `RoleKey` label is set by every service when it bootstraps its ringpop
instance; the data for this key is the service name. -/
def RoleKey : String := "serviceName"

/-- A ring member: a network address plus a label map
(Go `HostInfo { addr string; labels map[string]string }`). -/
structure HostInfo where
  addr : String
  labels : List (String × String)
deriving DecidableEq, Repr

/-- Go `NewHostInfo(addr, labels)`. -/
def NewHostInfo (addr : String) (labels : List (String × String)) : HostInfo :=
  ⟨addr, labels⟩

/-- The external consistent-hash ring capability, modelled at its contract
boundary: a collection of members identified by address. -/
structure HashRing where
  members : List HostInfo
deriving DecidableEq, Repr

/-- Addresses currently placed on the ring. -/
def HashRing.addrs (ring : HashRing) : List String :=
  ring.members.map HostInfo.addr

/-- Go `hashring.New(farm.Fingerprint32, 1)`: a fresh empty ring. -/
def HashRing.new : HashRing := ⟨[]⟩

/-- `AddMembers` for a single member: insertion is idempotent per member
identity, and identity is the address. -/
def HashRing.addMember (ring : HashRing) (h : HostInfo) : HashRing :=
  if h.addr ∈ ring.addrs then ring else ⟨ring.members ++ [h]⟩

/-- A concrete deterministic stand-in for the injected hash function
(farm.Fingerprint32 in the source): any fixed pure function of the key
satisfies the ring contract. -/
def hashStr (s : String) : Nat :=
  s.data.foldl (fun h c => h * 31 + c.toNat) 5381

/-- Ring `Lookup(key) → (member, found)`: deterministic placement; reports
not-found exactly when the ring has zero members, otherwise returns the
address of one of its members. -/
def HashRing.lookup (ring : HashRing) (key : String) : Option String :=
  match ring.members with
  | [] => none
  | a :: t =>
      some (((a :: t).get ⟨hashStr key % (a :: t).length,
        Nat.mod_lt _ (Nat.succ_pos t.length)⟩).addr)

/-- One member known to the gossip layer: an address plus the labels the
member itself carries. -/
structure Member where
  address : String
  memberLabels : List (String × String)
deriving DecidableEq, Repr

/-- `swim.MemberWithLabelAndValue(key, value)`: the member carries label
`key` with value `value`. -/
def memberWithLabelAndValue (key value : String) (m : Member) : Bool :=
  (key, value) ∈ m.memberLabels

/-- The external membership source (ringpop) at the boundary the resolver
consumes: the currently reachable member set, and whether the snapshot
query fails with a transport error. -/
structure MembershipSource where
  reachable : List Member
  fetchErr : Option String
deriving DecidableEq, Repr

/-- `rp.GetReachableMembers(filter)`: authoritative snapshot of reachable
member addresses filtered by a label predicate; may fail with a
transport error. -/
def getReachableMembers (ms : MembershipSource) (key value : String) :
    Except String (List String) :=
  match ms.fetchErr with
  | some e => .error e
  | none => .ok ((ms.reachable.filter (memberWithLabelAndValue key value)).map Member.address)

/-- The event pushed to listeners
(Go `ChangedEvent { HostsAdded, HostsRemoved, HostsUpdated []*HostInfo }`). -/
structure ChangedEvent where
  hostsAdded : List HostInfo
  hostsRemoved : List HostInfo
  hostsUpdated : List HostInfo
deriving DecidableEq, Repr

/-- A caller-owned bounded listener channel: fixed capacity plus the
events currently buffered. -/
structure EventChannel where
  capacity : Nat
  buffer : List ChangedEvent
deriving DecidableEq, Repr

/-- Non-blocking send (Go `select { case ch <- event: default: }`):
enqueue when the buffer has free capacity, otherwise drop; the Bool
reports whether delivery happened. -/
def deliver (ev : ChangedEvent) (ch : EventChannel) : EventChannel × Bool :=
  if ch.buffer.length < ch.capacity then
    ({ ch with buffer := ch.buffer ++ [ev] }, true)
  else
    (ch, false)

/-- Errors the resolver surfaces to its callers. -/
inductive MembershipError where
  | insufficientHosts
  | listenerAlreadyExist
deriving DecidableEq, Repr

/-- The resolver state (Go struct `ringpopServiceResolver`): service name,
whether it is currently registered as a listener of the membership
source, the current ring, and the listener registry.  The two locks of
the Go struct serialize the operations below, which the embedding
renders as atomic state transitions. -/
structure ResolverState where
  service : String
  subscribed : Bool
  ring : HashRing
  listeners : List (String × EventChannel)
deriving DecidableEq, Repr

/-- Go `getLabelsMap()`: a one-entry label map `RoleKey → service`. -/
def getLabelsMap (service : String) : List (String × String) :=
  [(RoleKey, service)]

/-- Go `newRingpopServiceResolver`: fresh empty ring, empty listener
registry, not yet subscribed. -/
def newRingpopServiceResolver (service : String) : ResolverState :=
  { service := service
    subscribed := false
    ring := HashRing.new
    listeners := [] }

/-- Insert every fetched address into a ring, each wrapped as a `HostInfo`
carrying the resolver's label map (the loop body shared by `Start` and
`refresh`). -/
def insertAddrs (service : String) (ring : HashRing) (addrs : List String) : HashRing :=
  addrs.foldl (fun rg addr => rg.addMember (NewHostInfo addr (getLabelsMap service))) ring

/-- Go `Start`: register as a listener of the membership source, then
fetch the reachable members filtered by the role label; on fetch failure
return the error (still subscribed); on success insert every address
into the ring. -/
def ResolverState.start (r : ResolverState) (ms : MembershipSource) :
    ResolverState × Option String :=
  let r1 := { r with subscribed := true }
  match getReachableMembers ms RoleKey r1.service with
  | .error e => (r1, some e)
  | .ok addrs => ({ r1 with ring := insertAddrs r1.service r1.ring addrs }, none)

/-- Go `Stop`: deregister from the membership source, replace the ring
with a fresh empty one, drop every listener registration. -/
def ResolverState.stop (r : ResolverState) : ResolverState :=
  { r with subscribed := false, ring := HashRing.new, listeners := [] }

/-- Go `Lookup`: delegate to the ring; `ErrInsufficientHosts` when the
ring reports not-found, otherwise a `HostInfo` for the resolved address
annotated with the resolver's label map. -/
def ResolverState.lookup (r : ResolverState) (key : String) :
    Except MembershipError HostInfo :=
  match r.ring.lookup key with
  | none => .error .insufficientHosts
  | some addr => .ok (NewHostInfo addr (getLabelsMap r.service))

/-- Go `AddListener`: reject a name already present
(`ErrListenerAlreadyExist`, registry unchanged), otherwise store the
channel. -/
def ResolverState.addListener (r : ResolverState) (name : String) (ch : EventChannel) :
    ResolverState × Option MembershipError :=
  match r.listeners.lookup name with
  | some _ => (r, some .listenerAlreadyExist)
  | none => ({ r with listeners := r.listeners ++ [(name, ch)] }, none)

/-- Go `RemoveListener`: delete the entry when present; an absent name is
a no-op, never an error. -/
def ResolverState.removeListener (r : ResolverState) (name : String) : ResolverState :=
  { r with listeners := r.listeners.filter (fun p => p.1 ≠ name) }

/-- Go `refresh`: replace the ring with a fresh empty one, re-fetch the
authoritative reachable members filtered by the role label, and insert
each into the new ring.  A fetch failure is `logger.Panic` in the
source: modelled as an `Except.error` that yields no successor state. -/
def ResolverState.refresh (r : ResolverState) (ms : MembershipSource) :
    Except String ResolverState :=
  let r1 := { r with ring := HashRing.new }
  match getReachableMembers ms RoleKey r1.service with
  | .error e => .error e
  | .ok addrs => .ok { r1 with ring := insertAddrs r1.service r1.ring addrs }

/-- The `ChangedEvent` built inside `emitEvent`: the notification's
added/removed/updated address lists, in order, each address wrapped as a
`HostInfo` with the resolver's label map. -/
def buildChangedEvent (service : String) (added removed updated : List String) :
    ChangedEvent :=
  { hostsAdded := added.map (fun a => NewHostInfo a (getLabelsMap service))
    hostsRemoved := removed.map (fun a => NewHostInfo a (getLabelsMap service))
    hostsUpdated := updated.map (fun a => NewHostInfo a (getLabelsMap service)) }

/-- Go `emitEvent`: build the event from the notification payload, then
attempt a non-blocking send to every registered listener; returns the
updated registry together with the names of listeners whose channel was
full (each of which the source logs as a dropped delivery). -/
def ResolverState.emitEvent (r : ResolverState) (added removed updated : List String) :
    ResolverState × List String :=
  let ev := buildChangedEvent r.service added removed updated
  let newListeners := r.listeners.map (fun p => (p.1, (deliver ev p.2).1))
  let dropped := (r.listeners.filter (fun p => !(deliver ev p.2).2)).map Prod.fst
  ({ r with listeners := newListeners }, dropped)

/-- Events arriving from ringpop: the resolver only acts on
`RingChangedEvent` and ignores every other kind. -/
inductive RpEvent where
  | ringChanged (added removed updated : List String)
  | other
deriving DecidableEq, Repr

/-- Go `HandleEvent`: on a ring-changed notification, refresh the ring
from the authoritative source, then emit the derived event to listeners;
any other event kind is ignored.  The error case is the refresh-time
panic. -/
def ResolverState.handleEvent (r : ResolverState) (ms : MembershipSource) (e : RpEvent) :
    Except String (ResolverState × List String) :=
  match e with
  | .other => .ok (r, [])
  | .ringChanged added removed updated =>
      match r.refresh ms with
      | .error err => .error err
      | .ok r1 => .ok (r1.emitEvent added removed updated)

/-! ### Concrete sample states

Small executable instances used to exercise the theorems below on
concrete inputs. -/

/-- A membership source holding one member of service `svc` (carrying an
extra label of its own) and one member of a different service. -/
def msSample : MembershipSource :=
  { reachable :=
      [ { address := "10.0.0.1:1234", memberLabels := [(RoleKey, "svc"), ("zone", "z1")] },
        { address := "10.0.0.2:1234", memberLabels := [(RoleKey, "other")] } ]
    fetchErr := none }

/-- A membership source whose snapshot query fails with a transport error. -/
def msFail : MembershipSource :=
  { reachable := [], fetchErr := some "connection refused" }

/-- A fresh resolver for service `svc`. -/
def rFresh : ResolverState := newRingpopServiceResolver "svc"

/-- The state `rFresh` reaches after processing a ring-changed
notification against `msSample`. -/
def rRebuilt : ResolverState :=
  { service := "svc"
    subscribed := false
    ring := { members := [{ addr := "10.0.0.1:1234", labels := [(RoleKey, "svc")] }] }
    listeners := [] }

/-- A started resolver whose ring holds a single member. -/
def rOne : ResolverState :=
  { service := "svc"
    subscribed := true
    ring := { members := [{ addr := "10.0.0.1:1234", labels := [(RoleKey, "svc")] }] }
    listeners := [] }

/-- A zero-capacity channel: every non-blocking send on it is dropped. -/
def chFull : EventChannel := { capacity := 0, buffer := [] }

/-- An empty channel with room for one event. -/
def chFree : EventChannel := { capacity := 1, buffer := [] }

/-- The channel `chFree` after receiving the event for an added host. -/
def chFreeDelivered : EventChannel :=
  { capacity := 1, buffer := [buildChangedEvent "svc" ["10.0.0.3:1"] [] []] }

/-- A started resolver with two listeners: `A` behind a full channel and
`B` behind a channel with free capacity. -/
def rListeners : ResolverState :=
  { service := "svc"
    subscribed := true
    ring := { members := [{ addr := "10.0.0.1:1234", labels := [(RoleKey, "svc")] }] }
    listeners := [("A", chFull), ("B", chFree)] }

/-- The state `rListeners` reaches after processing a ring-changed
notification that reports `10.0.0.4:1` removed, against `msSample`:
listener `A` keeps its full channel, listener `B` receives the event. -/
def rAfterRemove : ResolverState :=
  { service := "svc"
    subscribed := true
    ring := { members := [{ addr := "10.0.0.1:1234", labels := [(RoleKey, "svc")] }] }
    listeners := [("A", chFull),
      ("B", { capacity := 1, buffer := [buildChangedEvent "svc" [] ["10.0.0.4:1"] []] })] }

/-! ### Lemmas about the ring capability and the insertion loop -/

/-- In a registry whose names are unique, a name determines its channel. -/
lemma eq_of_mem_nodup_keys {β : Type} :
    ∀ (l : List (String × β)), (l.map Prod.fst).Nodup →
      ∀ (name : String) (b c : β), (name, b) ∈ l → (name, c) ∈ l → b = c := by
  intro l
  induction l with
  | nil => intro _ name b c hb; cases hb
  | cons p t ih =>
      intro hn name b c hb hc
      obtain ⟨k, v⟩ := p
      simp only [List.map_cons, List.nodup_cons] at hn
      rcases List.mem_cons.mp hb with hb1 | hb2
      · rcases List.mem_cons.mp hc with hc1 | hc2
        · rw [Prod.mk.injEq] at hb1 hc1
          rw [hb1.2, hc1.2]
        · exfalso
          rw [Prod.mk.injEq] at hb1
          apply hn.1
          rw [← hb1.1]
          exact List.mem_map_of_mem Prod.fst hc2
      · rcases List.mem_cons.mp hc with hc1 | hc2
        · exfalso
          rw [Prod.mk.injEq] at hc1
          apply hn.1
          rw [← hc1.1]
          exact List.mem_map_of_mem Prod.fst hb2
        · exact ih hn.2 name b c hb2 hc2

/-- Appending a new binding to a registry that does not hold the name
makes the name resolve to the new binding. -/
lemma lookup_append_singleton {β : Type} :
    ∀ (l : List (String × β)) (name : String) (v : β), l.lookup name = none →
      (l ++ [(name, v)]).lookup name = some v := by
  intro l
  induction l with
  | nil => intro name v _; simp [List.lookup]
  | cons p t ih =>
      intro name v h
      obtain ⟨k, w⟩ := p
      by_cases hk : name = k
      · subst hk
        simp [List.lookup] at h
      · have hbeq : (name == k) = false := by
          simp [hk]
        simp only [List.cons_append, List.lookup, hbeq] at h ⊢
        exact ih name v h

/-- The ring reports not-found exactly when it has zero members. -/
lemma HashRing.lookup_eq_none_iff (ring : HashRing) (key : String) :
    ring.lookup key = none ↔ ring.members = [] := by
  obtain ⟨members⟩ := ring
  cases members with
  | nil => simp [HashRing.lookup]
  | cons a t => simp [HashRing.lookup]

/-- A successful ring lookup returns the address of one of its members. -/
lemma HashRing.lookup_mem (ring : HashRing) (key : String) (a : String)
    (h : ring.lookup key = some a) : a ∈ ring.addrs := by
  obtain ⟨members⟩ := ring
  cases members with
  | nil => simp [HashRing.lookup] at h
  | cons b t =>
      simp only [HashRing.lookup, Option.some.injEq] at h
      subst h
      exact List.mem_map_of_mem HostInfo.addr (List.get_mem _ _ _)

lemma HashRing.mem_addrs_addMember (ring : HashRing) (h : HostInfo) (x : String) :
    x ∈ (ring.addMember h).addrs ↔ x ∈ ring.addrs ∨ x = h.addr := by
  unfold HashRing.addMember
  by_cases hm : h.addr ∈ ring.addrs
  · rw [if_pos hm]
    constructor
    · exact Or.inl
    · rintro (hx | rfl)
      · exact hx
      · exact hm
  · rw [if_neg hm]
    simp only [HashRing.addrs, List.map_append, List.mem_append, List.map_cons,
      List.map_nil, List.mem_cons, List.not_mem_nil, or_false]

/-- Any member of `ring.addMember h` is a member of `ring` or `h` itself. -/
lemma HashRing.mem_members_addMember (ring : HashRing) (h g : HostInfo)
    (hg : g ∈ (ring.addMember h).members) : g ∈ ring.members ∨ g = h := by
  unfold HashRing.addMember at hg
  by_cases hm : h.addr ∈ ring.addrs
  · rw [if_pos hm] at hg
    exact Or.inl hg
  · rw [if_neg hm] at hg
    simp only [List.mem_append, List.mem_cons, List.not_mem_nil, or_false] at hg
    exact hg

/-- Address-level effect of the insertion loop: the resulting ring holds
exactly the accumulator's addresses together with the inserted ones. -/
lemma mem_addrs_insertAddrs (s : String) :
    ∀ (addrs : List String) (ring : HashRing) (x : String),
      x ∈ (insertAddrs s ring addrs).addrs ↔ x ∈ ring.addrs ∨ x ∈ addrs := by
  intro addrs
  induction addrs with
  | nil => intro ring x; simp [insertAddrs]
  | cons a t ih =>
      intro ring x
      have hstep : insertAddrs s ring (a :: t) =
          insertAddrs s (ring.addMember (NewHostInfo a (getLabelsMap s))) t := rfl
      rw [hstep, ih]
      rw [HashRing.mem_addrs_addMember]
      simp [NewHostInfo]
      tauto

/-- Every member produced by the insertion loop either was already in the
accumulator or is an inserted address wrapped with the given label map. -/
lemma mem_members_insertAddrs (s : String) :
    ∀ (addrs : List String) (ring : HashRing) (h : HostInfo),
      h ∈ (insertAddrs s ring addrs).members →
        h ∈ ring.members ∨ h = NewHostInfo h.addr (getLabelsMap s) := by
  intro addrs
  induction addrs with
  | nil => intro ring h hm; exact Or.inl hm
  | cons a t ih =>
      intro ring h hm
      have hstep : insertAddrs s ring (a :: t) =
          insertAddrs s (ring.addMember (NewHostInfo a (getLabelsMap s))) t := rfl
      rw [hstep] at hm
      rcases ih _ h hm with hin | heq
      · rcases HashRing.mem_members_addMember _ _ _ hin with hin2 | heq2
        · exact Or.inl hin2
        · subst heq2; exact Or.inr rfl
      · exact Or.inr heq

/-- An address on the ring is witnessed by an actual member. -/
lemma HashRing.exists_member_of_addr (ring : HashRing) (x : String)
    (hx : x ∈ ring.addrs) : ∃ h ∈ ring.members, h.addr = x := by
  simp only [HashRing.addrs, List.mem_map] at hx
  obtain ⟨h, hh, rfl⟩ := hx
  exact ⟨h, hh, rfl⟩

/-- Full characterization of a ring rebuilt from scratch: its members are
exactly the inserted addresses, each wrapped with the given label map. -/
lemma mem_insertAddrs_new (s : String) (addrs : List String) (h : HostInfo) :
    h ∈ (insertAddrs s HashRing.new addrs).members ↔
      h.addr ∈ addrs ∧ h = NewHostInfo h.addr (getLabelsMap s) := by
  constructor
  · intro hm
    have h1 := mem_members_insertAddrs s addrs HashRing.new h hm
    have h2 : h.addr ∈ (insertAddrs s HashRing.new addrs).addrs :=
      List.mem_map_of_mem HostInfo.addr hm
    rw [mem_addrs_insertAddrs] at h2
    rcases h1 with hin | heq
    · simp [HashRing.new] at hin
    · refine ⟨?_, heq⟩
      rcases h2 with hin | hx
      · simp [HashRing.new, HashRing.addrs] at hin
      · exact hx
  · rintro ⟨hx, heq⟩
    have h2 : h.addr ∈ (insertAddrs s HashRing.new addrs).addrs := by
      rw [mem_addrs_insertAddrs]; exact Or.inr hx
    obtain ⟨g, hg, hga⟩ := HashRing.exists_member_of_addr _ _ h2
    rcases mem_members_insertAddrs s addrs HashRing.new g hg with hin | heqg
    · simp [HashRing.new] at hin
    · have : g = h := by rw [heqg, heq, hga]
      rw [← this]; exact hg

/-- On a successful fetch, `handleEvent` on a ring-changed notification
reduces to a ring rebuilt from scratch followed by event emission. -/
lemma handleEvent_ok_eq (r : ResolverState) (ms : MembershipSource)
    (added removed updated : List String) (addrs : List String)
    (hfetch : getReachableMembers ms RoleKey r.service = .ok addrs) :
    r.handleEvent ms (.ringChanged added removed updated) =
      .ok (({ r with ring := insertAddrs r.service HashRing.new addrs }).emitEvent
        added removed updated) := by
  cases hms : ms.fetchErr with
  | some e => simp [getReachableMembers, hms] at hfetch
  | none =>
      simp only [getReachableMembers, hms] at hfetch
      simp only [ResolverState.handleEvent, ResolverState.refresh, getReachableMembers, hms]
      rw [Except.ok.injEq] at hfetch
      rw [hfetch]

/-- C1: on every ring-changed notification the resolver rebuilds the ring
so that its members are exactly the addresses the membership source
reports reachable under the resolver's role label, each wrapped as a
`HostInfo` carrying the resolver's label map; no address taken from the
notification payload itself is ever inserted. -/
theorem handleEvent_rebuilds_ring_from_fetch
    (r : ResolverState) (ms : MembershipSource) (added removed updated : List String)
    (addrs : List String) (r' : ResolverState) (dropped : List String)
    (hfetch : getReachableMembers ms RoleKey r.service = .ok addrs)
    (hh : r.handleEvent ms (.ringChanged added removed updated) = .ok (r', dropped)) :
    (∀ h : HostInfo, h ∈ r'.ring.members ↔
        h.addr ∈ addrs ∧ h = NewHostInfo h.addr (getLabelsMap r.service)) ∧
    (∀ x ∈ added ++ removed ++ updated, x ∉ addrs →
        ∀ h ∈ r'.ring.members, h.addr ≠ x) := by
  rw [handleEvent_ok_eq r ms added removed updated addrs hfetch] at hh
  rw [Except.ok.injEq] at hh
  have hr : r' = (({ r with ring := insertAddrs r.service HashRing.new addrs }).emitEvent
      added removed updated).1 := by rw [hh]
  have hring : r'.ring = insertAddrs r.service HashRing.new addrs := by
    rw [hr]; rfl
  constructor
  · intro h
    rw [hring]
    exact mem_insertAddrs_new r.service addrs h
  · intro x _ hnx h hm heq
    have := (mem_insertAddrs_new r.service addrs h).mp (by rw [← hring]; exact hm)
    rw [heq] at this
    exact hnx this.1

/-- C2: `Lookup` returns `InsufficientHosts` exactly when the ring reports
not-found, the ring reports not-found exactly when it has zero members,
and on a resolved address `Lookup` returns a `HostInfo` for that address
(which is an actual ring member address). -/
theorem lookup_insufficient_hosts_iff (r : ResolverState) (key : String) :
    (r.lookup key = .error .insufficientHosts ↔ r.ring.members = []) ∧
    (r.ring.lookup key = none ↔ r.ring.members = []) ∧
    (∀ a, r.ring.lookup key = some a →
      r.lookup key = .ok (NewHostInfo a (getLabelsMap r.service)) ∧ a ∈ r.ring.addrs) := by
  have hiff : r.lookup key = Except.error MembershipError.insufficientHosts ↔
      r.ring.lookup key = none := by
    unfold ResolverState.lookup
    cases hl : r.ring.lookup key with
    | none => simp
    | some a => simp
  refine ⟨hiff.trans (HashRing.lookup_eq_none_iff _ _),
    HashRing.lookup_eq_none_iff _ _, ?_⟩
  intro a hl
  constructor
  · unfold ResolverState.lookup
    rw [hl]
  · exact HashRing.lookup_mem _ _ _ hl

/-- C3: event delivery is non-blocking and per-listener independent: a
listener with free buffer capacity receives the emitted event; a
listener with a full buffer keeps its channel unchanged and has a
dropped-delivery diagnostic recorded under its name — and in a registry
with unique names a free listener never appears among the drops. -/
theorem emitEvent_nonblocking_delivery
    (r : ResolverState) (added removed updated : List String)
    (name : String) (ch : EventChannel)
    (hnodup : (r.listeners.map Prod.fst).Nodup)
    (hmem : (name, ch) ∈ r.listeners) :
    (ch.buffer.length < ch.capacity →
      (name, { ch with buffer := ch.buffer ++
          [buildChangedEvent r.service added removed updated] }) ∈
        (r.emitEvent added removed updated).1.listeners ∧
      name ∉ (r.emitEvent added removed updated).2) ∧
    (¬ ch.buffer.length < ch.capacity →
      (name, ch) ∈ (r.emitEvent added removed updated).1.listeners ∧
      name ∈ (r.emitEvent added removed updated).2) := by
  constructor
  · intro hroom
    constructor
    · have := List.mem_map_of_mem
        (fun p : String × EventChannel =>
          (p.1, (deliver (buildChangedEvent r.service added removed updated) p.2).1)) hmem
      simpa [ResolverState.emitEvent, deliver, if_pos hroom] using this
    · intro hdrop
      simp only [ResolverState.emitEvent, List.mem_map] at hdrop
      obtain ⟨p, hp, hpname⟩ := hdrop
      have hpmem := List.mem_filter.mp hp
      have hpfail : (deliver (buildChangedEvent r.service added removed updated) p.2).2 = false := by
        have := hpmem.2
        simpa using this
      obtain ⟨k, c⟩ := p
      have hk : k = name := hpname
      subst hk
      have hceq : c = ch := eq_of_mem_nodup_keys r.listeners hnodup k c ch hpmem.1 hmem
      subst hceq
      rw [deliver, if_pos hroom] at hpfail
      simp at hpfail
  · intro hfull
    have hfail : deliver (buildChangedEvent r.service added removed updated) ch = (ch, false) := by
      rw [deliver, if_neg hfull]
    constructor
    · have := List.mem_map_of_mem
        (fun p : String × EventChannel =>
          (p.1, (deliver (buildChangedEvent r.service added removed updated) p.2).1)) hmem
      simpa [ResolverState.emitEvent, hfail] using this
    · simp only [ResolverState.emitEvent, List.mem_map]
      refine ⟨(name, ch), List.mem_filter.mpr ⟨hmem, ?_⟩, rfl⟩
      simp [hfail]

/-- C4: registering a listener under a taken name is rejected with
`ListenerAlreadyExist` and leaves the registry unchanged, so the
original channel stays registered; registering under a fresh name stores
the channel and returns no error. -/
theorem addListener_duplicate_rejected
    (r : ResolverState) (name : String) (ch ch2 : EventChannel) :
    (∀ ch0, r.listeners.lookup name = some ch0 →
      r.addListener name ch2 = (r, some .listenerAlreadyExist)) ∧
    (r.listeners.lookup name = none →
      r.addListener name ch = ({ r with listeners := r.listeners ++ [(name, ch)] }, none) ∧
      (r.addListener name ch).1.listeners.lookup name = some ch ∧
      (r.addListener name ch).1.addListener name ch2 =
        ((r.addListener name ch).1, some .listenerAlreadyExist)) := by
  constructor
  · intro ch0 hsome
    unfold ResolverState.addListener
    rw [hsome]
  · intro hnone
    have hstore : r.addListener name ch =
        ({ r with listeners := r.listeners ++ [(name, ch)] }, none) := by
      unfold ResolverState.addListener
      rw [hnone]
    have hfound : (r.addListener name ch).1.listeners.lookup name = some ch := by
      rw [hstore]
      exact lookup_append_singleton r.listeners name ch hnone
    refine ⟨hstore, hfound, ?_⟩
    rw [hstore]
    unfold ResolverState.addListener
    rw [lookup_append_singleton r.listeners name ch hnone]

/-- C5: `Stop` deregisters from the membership source, replaces the ring
with a fresh empty one and empties the listener registry; afterwards
every `Lookup` returns `InsufficientHosts` and an emitted event reaches
no listener. -/
theorem stop_clears_ring_and_listeners
    (r : ResolverState) (key : String) (added removed updated : List String) :
    r.stop.subscribed = false ∧
    r.stop.ring = HashRing.new ∧
    r.stop.listeners = [] ∧
    r.stop.lookup key = .error .insufficientHosts ∧
    (r.stop.emitEvent added removed updated).1.listeners = [] ∧
    (r.stop.emitEvent added removed updated).2 = [] :=
  ⟨rfl, rfl, rfl, rfl, rfl, rfl⟩

/-- C6: when the authoritative fetch fails during `Start`, the error is
returned to the caller, no member is inserted (a fresh resolver's ring
stays empty), and the resolver is nevertheless left subscribed, because
listener registration happens before the fetch. -/
theorem start_fetch_failure_still_subscribed
    (r : ResolverState) (ms : MembershipSource) (e : String)
    (hfail : ms.fetchErr = some e) :
    r.start ms = ({ r with subscribed := true }, some e) ∧
    ((newRingpopServiceResolver r.service).start ms).1.ring.members = [] ∧
    ((newRingpopServiceResolver r.service).start ms).1.subscribed = true := by
  have hstart : ∀ r0 : ResolverState, r0.start ms = ({ r0 with subscribed := true }, some e) := by
    intro r0
    unfold ResolverState.start
    simp [getReachableMembers, hfail]
  refine ⟨hstart r, ?_, ?_⟩
  · rw [hstart (newRingpopServiceResolver r.service)]; rfl
  · rw [hstart (newRingpopServiceResolver r.service)]

/-- C7: when the authoritative fetch fails during a notification-triggered
refresh, the resolver treats it as fatal: `refresh` (and hence
`handleEvent`) ends in the panic outcome, yielding no successor state and
emitting nothing. -/
theorem refresh_fetch_failure_fatal
    (r : ResolverState) (ms : MembershipSource) (e : String)
    (added removed updated : List String)
    (hfail : ms.fetchErr = some e) :
    r.refresh ms = .error e ∧
    r.handleEvent ms (.ringChanged added removed updated) = .error e := by
  have href : r.refresh ms = .error e := by
    unfold ResolverState.refresh
    simp [getReachableMembers, hfail]
  refine ⟨href, ?_⟩
  unfold ResolverState.handleEvent
  rw [href]

/-- C8: the `ChangedEvent` pushed to listeners is built solely from the
notification's added/removed/updated address lists, in order, each
address annotated with the resolver's label map; the post-refresh
listener registry is a function of the old registry and that event
alone, so the freshly fetched ring plays no part in it. -/
theorem changed_event_built_from_notification
    (r : ResolverState) (ms : MembershipSource) (added removed updated : List String)
    (r' : ResolverState) (dropped : List String)
    (hok : ms.fetchErr = none)
    (hh : r.handleEvent ms (.ringChanged added removed updated) = .ok (r', dropped)) :
    buildChangedEvent r.service added removed updated =
      { hostsAdded := added.map (fun a => NewHostInfo a (getLabelsMap r.service))
        hostsRemoved := removed.map (fun a => NewHostInfo a (getLabelsMap r.service))
        hostsUpdated := updated.map (fun a => NewHostInfo a (getLabelsMap r.service)) } ∧
    r'.listeners = r.listeners.map
      (fun p => (p.1, (deliver (buildChangedEvent r.service added removed updated) p.2).1)) ∧
    dropped = (r.listeners.filter
      (fun p => !(deliver (buildChangedEvent r.service added removed updated) p.2).2)).map
        Prod.fst := by
  have hfetch : getReachableMembers ms RoleKey r.service =
      .ok ((ms.reachable.filter (memberWithLabelAndValue RoleKey r.service)).map
        Member.address) := by
    simp [getReachableMembers, hok]
  rw [handleEvent_ok_eq r ms added removed updated _ hfetch] at hh
  rw [Except.ok.injEq] at hh
  have hl := congrArg (fun p : ResolverState × List String => p.1.listeners) hh
  have hd := congrArg (fun p : ResolverState × List String => p.2) hh
  exact ⟨rfl, hl.symm, hd.symm⟩

/-- C10: every `HostInfo` the resolver produces — a successful `Lookup`
result, a ring member inserted by `Start` or `refresh`, or a host placed
in an emitted `ChangedEvent` — carries exactly the one-entry label map
`RoleKey → service`; the member's own labels from the membership layer
are never propagated. -/
theorem labels_map_is_single_role_entry
    (r : ResolverState) (ms : MembershipSource) (key : String)
    (added removed updated : List String) :
    getLabelsMap r.service = [(RoleKey, r.service)] ∧
    (∀ h, r.lookup key = .ok h → h.labels = [(RoleKey, r.service)]) ∧
    (∀ r1, r.refresh ms = .ok r1 → ∀ h ∈ r1.ring.members, h.labels = [(RoleKey, r.service)]) ∧
    (∀ h ∈ ((newRingpopServiceResolver r.service).start ms).1.ring.members,
      h.labels = [(RoleKey, r.service)]) ∧
    (∀ h ∈ (buildChangedEvent r.service added removed updated).hostsAdded ++
        (buildChangedEvent r.service added removed updated).hostsRemoved ++
        (buildChangedEvent r.service added removed updated).hostsUpdated,
      h.labels = [(RoleKey, r.service)]) := by
  refine ⟨rfl, ?_, ?_, ?_, ?_⟩
  · intro h hok
    unfold ResolverState.lookup at hok
    cases hl : r.ring.lookup key with
    | none => rw [hl] at hok; cases hok
    | some a =>
        rw [hl] at hok
        rw [Except.ok.injEq] at hok
        rw [← hok]
        rfl
  · intro r1 hrefresh h hm
    cases hms : ms.fetchErr with
    | some e =>
        unfold ResolverState.refresh at hrefresh
        simp [getReachableMembers, hms] at hrefresh
    | none =>
        unfold ResolverState.refresh at hrefresh
        simp only [getReachableMembers, hms] at hrefresh
        rw [Except.ok.injEq] at hrefresh
        rw [← hrefresh] at hm
        have := (mem_insertAddrs_new r.service _ h).mp hm
        rw [this.2]
        rfl
  · intro h hm
    cases hms : ms.fetchErr with
    | some e =>
        unfold ResolverState.start at hm
        simp only [getReachableMembers, hms] at hm
        simp [newRingpopServiceResolver, HashRing.new] at hm
    | none =>
        unfold ResolverState.start at hm
        simp only [getReachableMembers, hms] at hm
        have := (mem_insertAddrs_new r.service _ h).mp hm
        rw [this.2]
        rfl
  · intro h hm
    simp only [buildChangedEvent, List.mem_append, List.mem_map] at hm
    rcases hm with (⟨a, _, rfl⟩ | ⟨a, _, rfl⟩) | ⟨a, _, rfl⟩ <;> rfl

/-- Witness for C1: on concrete inputs, the rebuilt ring holds exactly
the fetched member of the right service and never the payload address. -/
theorem handleEvent_rebuilds_ring_from_fetch_witness :
    ((⟨"10.0.0.1:1234", [("serviceName", "svc")]⟩ : HostInfo) ∈ rRebuilt.ring.members) ∧
    (∀ h ∈ rRebuilt.ring.members, h.addr ≠ "10.0.0.9:1") := by
  have main := handleEvent_rebuilds_ring_from_fetch rFresh msSample
    ["10.0.0.9:1"] [] [] ["10.0.0.1:1234"] rRebuilt [] rfl rfl
  constructor
  · exact (main.1 _).mpr (by decide)
  · intro h hm
    exact main.2 "10.0.0.9:1" (by decide) (by decide) h hm

/-- Witness for C2: an empty resolver answers `InsufficientHosts`, a
one-member resolver resolves the key to its member. -/
theorem lookup_insufficient_hosts_iff_witness :
    ((newRingpopServiceResolver "svc").lookup "shard-17" = .error .insufficientHosts) ∧
    (rOne.lookup "shard-17" = .ok (NewHostInfo "10.0.0.1:1234" (getLabelsMap "svc"))) := by
  constructor
  · exact (lookup_insufficient_hosts_iff (newRingpopServiceResolver "svc") "shard-17").1.mpr rfl
  · exact ((lookup_insufficient_hosts_iff rOne "shard-17").2.2 "10.0.0.1:1234" rfl).1

/-- Witness for C3: with listener `A` behind a full channel and `B`
behind a free one, an emission delivers to `B` and drops only `A`. -/
theorem emitEvent_nonblocking_delivery_witness :
    (("B", chFreeDelivered) ∈
      (rListeners.emitEvent ["10.0.0.3:1"] [] []).1.listeners) ∧
    ("B" ∉ (rListeners.emitEvent ["10.0.0.3:1"] [] []).2) ∧
    (("A", chFull) ∈ (rListeners.emitEvent ["10.0.0.3:1"] [] []).1.listeners) ∧
    ("A" ∈ (rListeners.emitEvent ["10.0.0.3:1"] [] []).2) := by
  have hB := emitEvent_nonblocking_delivery rListeners ["10.0.0.3:1"] [] [] "B" chFree
    (by decide) (by decide)
  have hA := emitEvent_nonblocking_delivery rListeners ["10.0.0.3:1"] [] [] "A" chFull
    (by decide) (by decide)
  exact ⟨(hB.1 (by decide)).1, (hB.1 (by decide)).2,
    (hA.2 (by decide)).1, (hA.2 (by decide)).2⟩

/-- Witness for C4: a fresh registration stores the channel; repeating
the same name is rejected with the registry left as it was. -/
theorem addListener_duplicate_rejected_witness :
    (rFresh.addListener "x" chFree = ({ rFresh with listeners := [("x", chFree)] }, none)) ∧
    ((rFresh.addListener "x" chFree).1.addListener "x" chFull =
      ((rFresh.addListener "x" chFree).1, some .listenerAlreadyExist)) ∧
    (rListeners.addListener "A" chFree = (rListeners, some .listenerAlreadyExist)) := by
  have main := addListener_duplicate_rejected rFresh "x" chFree chFull
  have h := main.2 rfl
  have main2 := addListener_duplicate_rejected rListeners "A" chFull chFree
  exact ⟨h.1, h.2.2, main2.1 chFull rfl⟩

/-- Witness for C6: a failing fetch during `Start` returns the transport
error while leaving the fresh resolver subscribed with an empty ring. -/
theorem start_fetch_failure_still_subscribed_witness :
    (rFresh.start msFail = ({ rFresh with subscribed := true }, some "connection refused")) ∧
    (((newRingpopServiceResolver "svc").start msFail).1.ring.members = []) ∧
    (((newRingpopServiceResolver "svc").start msFail).1.subscribed = true) := by
  have main := start_fetch_failure_still_subscribed rFresh msFail "connection refused" rfl
  exact ⟨main.1, main.2.1, main.2.2⟩

/-- Witness for C7: a failing fetch during refresh ends in the panic
outcome on concrete inputs. -/
theorem refresh_fetch_failure_fatal_witness :
    rOne.refresh msFail = .error "connection refused" ∧
    rOne.handleEvent msFail (.ringChanged ["10.0.0.1:1234"] [] []) =
      .error "connection refused" :=
  refresh_fetch_failure_fatal rOne msFail "connection refused" ["10.0.0.1:1234"] [] [] rfl

/-- Witness for C8: on a concrete notification the updated registry and
drop log are exactly the per-listener deliveries of the event built from
the notification payload. -/
theorem changed_event_built_from_notification_witness :
    (rAfterRemove.listeners = rListeners.listeners.map
      (fun p => (p.1, (deliver (buildChangedEvent "svc" [] ["10.0.0.4:1"] []) p.2).1))) ∧
    ((["A"] : List String) = (rListeners.listeners.filter
      (fun p => !(deliver (buildChangedEvent "svc" [] ["10.0.0.4:1"] []) p.2).2)).map
        Prod.fst) := by
  have main := changed_event_built_from_notification rListeners msSample
    [] ["10.0.0.4:1"] [] rAfterRemove ["A"] rfl rfl
  exact ⟨main.2.1, main.2.2⟩

/-- Witness for C10: concrete `HostInfo` values produced by `Lookup` and
by event construction carry exactly the one-entry role label map. -/
theorem labels_map_is_single_role_entry_witness :
    ((NewHostInfo "10.0.0.1:1234" (getLabelsMap "svc")).labels = [(RoleKey, "svc")]) ∧
    ((HostInfo.mk "a" (getLabelsMap "svc")).labels = [(RoleKey, "svc")]) := by
  have main := labels_map_is_single_role_entry rOne msSample "shard-17" ["a"] [] []
  exact ⟨main.2.1 (NewHostInfo "10.0.0.1:1234" (getLabelsMap "svc")) rfl,
    main.2.2.2.2 (HostInfo.mk "a" (getLabelsMap "svc")) (by decide)⟩

end RpResolver
